import Mathlib

/-!
Shallow embedding of `src/generate_noise_texture.py` (the whole repository:
a single function `generate_simplex_noise_texture`), together with proofs
of the specification claims about it.

Modelling conventions:
* Python floats are modelled by `ℚ` (exact arithmetic).
* The external noise primitive `noise.pnoise2` is an opaque parameter of
  type `NoiseFn`; the code calls it as
  `pnoise2(x, y, octaves, persistence, lacunarity, repeatx, repeaty, base)`.
* The 2-D numpy array `world` is a `List (List ℚ)` with `height` rows of
  `width` columns, filled exactly as the nested loop does.
* `astype(np.uint8)` is a C-style float→integer cast: truncation toward
  zero, then reduction modulo 256 into an unsigned byte.
* The failure modes of the Python code (numpy's rejection of negative
  dimensions, Python's division by zero, numpy's reduction over an empty
  array, `os.makedirs` on the empty string) are made explicit in an
  `Except` result mirroring the order in which the interpreter would hit
  them; `Except.error` means no output file is written.
-/

/-- The type of the external noise primitive `noise.pnoise2`:
arguments `x y octaves persistence lacunarity repeatx repeaty base`. -/
def NoiseFn : Type :=
  ℚ → ℚ → ℕ → ℚ → ℚ → ℕ → ℕ → ℤ → ℚ

/-- One sample of the nested loop: `world[i][j] = pnoise2(i/scale, j/scale,
octaves, persistence, lacunarity, repeatx=width, repeaty=height, base=seed)`.
Note the row index `i` is passed as the noise `x` coordinate. -/
def worldSample (P : NoiseFn) (width height : ℕ) (scale persistence lacunarity : ℚ)
    (octaves : ℕ) (seed : ℤ) (i j : ℚ) : ℚ :=
  P (i / scale) (j / scale) octaves persistence lacunarity width height seed

/-- The raw height field `world`: `height` rows, `width` columns,
`world[i][j]` as in the sampling loop of lines 14–25. -/
def worldGrid (P : NoiseFn) (width height : ℕ) (scale persistence lacunarity : ℚ)
    (octaves : ℕ) (seed : ℤ) : List (List ℚ) :=
  (List.range height).map fun (i : ℕ) =>
    (List.range width).map fun (j : ℕ) =>
      worldSample P width height scale persistence lacunarity octaves seed (i : ℚ) (j : ℚ)

/-- Numpy's `np.min` over a flattened nonempty list (0 as junk value on
`[]`, where numpy raises instead; the error is modelled in `generateRun`). -/
def listMin : List ℚ → ℚ
  | [] => 0
  | x :: xs => xs.foldl min x

/-- Numpy's `np.max` over a flattened nonempty list (0 as junk value on `[]`). -/
def listMax : List ℚ → ℚ
  | [] => 0
  | x :: xs => xs.foldl max x

/-- Lines 28–33: min-max normalization of the height field, with
`min_val = np.min(world)` and `max_val = np.max(world)` inlined; if
`max_val == min_val` the result is `np.zeros_like(world)`. -/
def normalizeGrid (g : List (List ℚ)) : List (List ℚ) :=
  if listMax g.flatten = listMin g.flatten then
    g.map fun row => row.map fun _ => (0 : ℚ)
  else
    g.map fun row => row.map fun v =>
      (v - listMin g.flatten) / (listMax g.flatten - listMin g.flatten)

/-- Truncation toward zero of a rational, the behaviour of a C float→int
cast (floor for nonnegative input, ceiling for negative input). -/
def ratTrunc (q : ℚ) : ℤ :=
  if 0 ≤ q then Rat.floor q else Rat.ceil q

/-- Reduction of an integer into an unsigned byte. -/
def toUint8 (z : ℤ) : ℕ :=
  (z % 256).toNat

/-- Line 36 per pixel: `(v * 255).astype(np.uint8)`. -/
def quantizePixel (v : ℚ) : ℕ :=
  toUint8 (ratTrunc (v * 255))

/-- Lines 28–36: the full raw-field → byte-image computation
(normalize, then quantize every pixel). -/
def imgGrid (g : List (List ℚ)) : List (List ℕ) :=
  (normalizeGrid g).map fun row => row.map quantizePixel

/-- Round-half-up rounding to an integer, as the word "round" in the
spec's data-model sentence reads. -/
def specRound (q : ℚ) : ℤ :=
  ⌊q + 1 / 2⌋

/-- The quantizer the spec's data-model sentence describes
(`round(normalized_value × 255)` cast to an unsigned byte), stated for
comparison against the source's `quantizePixel`. -/
def roundQuantizePixel (v : ℚ) : ℕ :=
  toUint8 (specRound (v * 255))

/-- Numpy's `np.random.randint(lo, hi)` draws from the half-open range
`[lo, hi)`; the ambient randomness is modelled as a natural number `r`,
the draw as `lo + r % (hi - lo)`. -/
def npRandint (lo hi : ℤ) (r : ℕ) : ℤ :=
  lo + (r : ℤ) % (hi - lo)

/-- Lines 11–12: the seed actually used: the given one, or
`np.random.randint(0, 100)` when `seed is None`. -/
def usedSeed (seed : Option ℤ) (r : ℕ) : ℤ :=
  seed.getD (npRandint 0 100 r)

/-- Python's `os.path.dirname` for POSIX paths: everything up to the last
`/` (trailing slashes stripped unless the result is all slashes); `""`
when the path has no `/`. -/
def posixDirname (p : String) : String :=
  let cs := p.toList
  if '/' ∈ cs then
    let head := (cs.reverse.dropWhile fun c => ¬c = '/').reverse
    if head.all fun c => c = '/' then String.mk head
    else String.mk ((head.reverse.dropWhile fun c => c = '/').reverse)
  else ""

/-- The run-time errors the Python code can raise, in the order the
interpreter meets them. -/
inductive GenError : Type
  /-- Allocating `np.zeros((height, width))` with a negative dimension
  raises `ValueError`. -/
  | negativeDimension : GenError
  /-- Evaluating `i / scale` with `scale == 0` raises `ZeroDivisionError`
  as soon as the loop body runs. -/
  | divisionByZero : GenError
  /-- Reducing with `np.min` / `np.max` over an empty array raises
  `ValueError`. -/
  | emptyGrid : GenError
  /-- Calling `os.makedirs("")` raises `FileNotFoundError`, even with
  `exist_ok=True` and a writable current directory. -/
  | makedirsEmptyPath : GenError
  deriving DecidableEq, Repr

/-- The whole of `generate_simplex_noise_texture`, following the Python
control flow: resolve the seed, allocate `world` (negative dimensions
rejected), run the sampling loop (division by zero when `scale == 0` and
the body executes), reduce with `np.min`/`np.max` (empty grid rejected),
normalize, quantize, `os.makedirs(os.path.dirname(output_path))`
(empty dirname rejected), and save.  `Except.ok` carries the byte image
that is written; `Except.error` means no file is written. -/
def generateRun (P : NoiseFn) (width height : ℤ) (scale persistence lacunarity : ℚ)
    (octaves : ℕ) (seed : Option ℤ) (r : ℕ) (output_path : String) :
    Except GenError (List (List ℕ)) :=
  let s := usedSeed seed r
  if width < 0 ∨ height < 0 then
    .error .negativeDimension
  else if scale = 0 ∧ 0 < width ∧ 0 < height then
    .error .divisionByZero
  else if width = 0 ∨ height = 0 then
    .error .emptyGrid
  else if posixDirname output_path = "" then
    .error .makedirsEmptyPath
  else
    .ok (imgGrid (worldGrid P width.toNat height.toNat scale persistence lacunarity octaves s))

/-- A noise primitive honouring the `repeatx`/`repeaty` contract: adding
the x-wrap to `x` (resp. the y-wrap to `y`) leaves the value unchanged. -/
def PeriodicNoise (P : NoiseFn) : Prop :=
  ∀ (x y : ℚ) (octaves : ℕ) (persistence lacunarity : ℚ) (rx ry : ℕ) (b : ℤ),
    P (x + rx) y octaves persistence lacunarity rx ry b =
      P x y octaves persistence lacunarity rx ry b ∧
    P x (y + ry) octaves persistence lacunarity rx ry b =
      P x y octaves persistence lacunarity rx ry b

/-- The tileability property the spec asserts of the sampling loop: for
every periodic noise primitive and positive parameters, the sample one
period past the grid edge (row `height`) equals the sample at row 0. -/
def tileableClaim : Prop :=
  ∀ (P : NoiseFn), PeriodicNoise P →
    ∀ (width height : ℕ) (scale persistence lacunarity : ℚ) (octaves : ℕ)
      (seed : ℤ) (x : ℚ), 0 < width → 0 < height → scale ≠ 0 →
      worldSample P width height scale persistence lacunarity octaves seed (height : ℚ) x =
        worldSample P width height scale persistence lacunarity octaves seed 0 x

/-- A concrete periodic noise primitive: the fractional part of `x / repeatx`
(0 when `repeatx = 0`), ignoring `y`; periodic with period `repeatx` in `x`
and trivially periodic in `y`. -/
def exPeriodic : NoiseFn := fun x _ _ _ _ rx _ _ =>
  if rx = 0 then 0 else x / (rx : ℚ) - ((Rat.floor (x / (rx : ℚ)) : ℤ) : ℚ)

/-! ### Helper lemmas about the fold-based minimum and maximum -/

theorem foldl_min_le_init (xs : List ℚ) (a : ℚ) : xs.foldl min a ≤ a := by
  induction xs generalizing a with
  | nil => exact le_refl a
  | cons x xs ih => exact le_trans (ih (min a x)) (min_le_left a x)

theorem foldl_min_le_of_mem (xs : List ℚ) (a v : ℚ) (hv : v ∈ xs) :
    xs.foldl min a ≤ v := by
  induction xs generalizing a with
  | nil => cases hv
  | cons x xs ih =>
    rcases List.mem_cons.mp hv with h | h
    · subst h
      exact le_trans (foldl_min_le_init xs (min a v)) (min_le_right a v)
    · exact ih (min a x) h

theorem foldl_min_eq_init_or_mem (xs : List ℚ) (a : ℚ) :
    xs.foldl min a = a ∨ xs.foldl min a ∈ xs := by
  induction xs generalizing a with
  | nil => exact Or.inl rfl
  | cons x xs ih =>
    rcases ih (min a x) with h | h
    · rcases le_total a x with hax | hax
      · exact Or.inl (by rw [List.foldl_cons, h, min_eq_left hax])
      · refine Or.inr ?_
        rw [List.foldl_cons, h, min_eq_right hax]
        exact List.mem_cons_self x xs
    · exact Or.inr (List.mem_cons_of_mem x h)

theorem listMin_le_of_mem (l : List ℚ) (v : ℚ) (hv : v ∈ l) : listMin l ≤ v := by
  cases l with
  | nil => cases hv
  | cons x xs =>
    rcases List.mem_cons.mp hv with h | h
    · subst h
      exact foldl_min_le_init xs v
    · exact foldl_min_le_of_mem xs x v h

theorem listMin_mem (l : List ℚ) (h : l ≠ []) : listMin l ∈ l := by
  cases l with
  | nil => exact absurd rfl h
  | cons x xs =>
    rcases foldl_min_eq_init_or_mem xs x with h1 | h1
    · rw [listMin, h1]
      exact List.mem_cons_self x xs
    · rw [listMin]
      exact List.mem_cons_of_mem x h1

theorem le_foldl_max_init (xs : List ℚ) (a : ℚ) : a ≤ xs.foldl max a := by
  induction xs generalizing a with
  | nil => exact le_refl a
  | cons x xs ih => exact le_trans (le_max_left a x) (ih (max a x))

theorem le_foldl_max_of_mem (xs : List ℚ) (a v : ℚ) (hv : v ∈ xs) :
    v ≤ xs.foldl max a := by
  induction xs generalizing a with
  | nil => cases hv
  | cons x xs ih =>
    rcases List.mem_cons.mp hv with h | h
    · subst h
      exact le_trans (le_max_right a v) (le_foldl_max_init xs (max a v))
    · exact ih (max a x) h

theorem foldl_max_eq_init_or_mem (xs : List ℚ) (a : ℚ) :
    xs.foldl max a = a ∨ xs.foldl max a ∈ xs := by
  induction xs generalizing a with
  | nil => exact Or.inl rfl
  | cons x xs ih =>
    rcases ih (max a x) with h | h
    · rcases le_total a x with hax | hax
      · refine Or.inr ?_
        rw [List.foldl_cons, h, max_eq_right hax]
        exact List.mem_cons_self x xs
      · exact Or.inl (by rw [List.foldl_cons, h, max_eq_left hax])
    · exact Or.inr (List.mem_cons_of_mem x h)

theorem le_listMax_of_mem (l : List ℚ) (v : ℚ) (hv : v ∈ l) : v ≤ listMax l := by
  cases l with
  | nil => cases hv
  | cons x xs =>
    rcases List.mem_cons.mp hv with h | h
    · subst h
      exact le_foldl_max_init xs v
    · exact le_foldl_max_of_mem xs x v h

theorem listMax_mem (l : List ℚ) (h : l ≠ []) : listMax l ∈ l := by
  cases l with
  | nil => exact absurd rfl h
  | cons x xs =>
    rcases foldl_max_eq_init_or_mem xs x with h1 | h1
    · rw [listMax, h1]
      exact List.mem_cons_self x xs
    · rw [listMax]
      exact List.mem_cons_of_mem x h1

/-! ### Helper lemmas about normalization -/

theorem normalizeGrid_flatten (g : List (List ℚ)) :
    (normalizeGrid g).flatten =
      if listMax g.flatten = listMin g.flatten then
        g.flatten.map fun _ => (0 : ℚ)
      else
        g.flatten.map fun v =>
          (v - listMin g.flatten) / (listMax g.flatten - listMin g.flatten) := by
  unfold normalizeGrid
  split <;> simp only [← List.map_flatten]

theorem normalized_bounds (g : List (List ℚ)) (w : ℚ)
    (hw : w ∈ (normalizeGrid g).flatten) : 0 ≤ w ∧ w ≤ 1 := by
  rw [normalizeGrid_flatten] at hw
  split at hw
  · obtain ⟨v, hv, rfl⟩ := List.mem_map.mp hw
    exact ⟨le_refl 0, zero_le_one⟩
  · rename_i h
    obtain ⟨v, hv, rfl⟩ := List.mem_map.mp hw
    have hmn : listMin g.flatten ≤ v := listMin_le_of_mem _ _ hv
    have hmx : v ≤ listMax g.flatten := le_listMax_of_mem _ _ hv
    have hlt : listMin g.flatten < listMax g.flatten :=
      lt_of_le_of_ne (le_trans hmn hmx) fun e => h e.symm
    have hpos : (0 : ℚ) < listMax g.flatten - listMin g.flatten := sub_pos.mpr hlt
    exact ⟨div_nonneg (sub_nonneg.mpr hmn) hpos.le,
      (div_le_one hpos).mpr (sub_le_sub_right hmx _)⟩

theorem normalized_endpoints (g : List (List ℚ)) (hne : g.flatten ≠ [])
    (h : listMax g.flatten ≠ listMin g.flatten) :
    (0 : ℚ) ∈ (normalizeGrid g).flatten ∧ (1 : ℚ) ∈ (normalizeGrid g).flatten := by
  rw [normalizeGrid_flatten, if_neg h]
  constructor
  · exact List.mem_map.mpr ⟨listMin g.flatten, listMin_mem _ hne, by rw [sub_self, zero_div]⟩
  · exact List.mem_map.mpr ⟨listMax g.flatten, listMax_mem _ hne,
      div_self (sub_ne_zero.mpr h)⟩

/-! ### Helper lemmas about quantization and the image grid -/

theorem rat_floor_eq_int_floor (q : ℚ) : Rat.floor q = ⌊q⌋ := rfl

theorem ratTrunc_of_nonneg (q : ℚ) (h : 0 ≤ q) : ratTrunc q = ⌊q⌋ := by
  unfold ratTrunc
  rw [if_pos h, rat_floor_eq_int_floor]

theorem quantizePixel_eq_floor (v : ℚ) (h0 : 0 ≤ v) (h1 : v ≤ 1) :
    quantizePixel v = (⌊v * 255⌋).toNat := by
  have hm0 : (0 : ℚ) ≤ v * 255 := mul_nonneg h0 (by norm_num)
  have hf0 : (0 : ℤ) ≤ ⌊v * 255⌋ := Int.floor_nonneg.mpr hm0
  have hub : v * 255 ≤ 255 := by
    calc v * 255 ≤ 1 * 255 := mul_le_mul_of_nonneg_right h1 (by norm_num)
    _ = 255 := one_mul 255
  have hfub : ⌊v * 255⌋ ≤ 255 := by
    have h := Int.floor_le_floor hub
    simpa using h
  unfold quantizePixel toUint8
  rw [ratTrunc_of_nonneg _ hm0, Int.emod_eq_of_lt hf0 (by omega)]

theorem quantizePixel_le_255 (v : ℚ) : quantizePixel v ≤ 255 := by
  unfold quantizePixel toUint8
  have h : ratTrunc (v * 255) % 256 < 256 := Int.emod_lt_of_pos _ (by norm_num)
  omega

theorem quantizePixel_zero : quantizePixel 0 = 0 := by
  with_unfolding_all rfl

theorem quantizePixel_one : quantizePixel 1 = 255 := by
  with_unfolding_all rfl

theorem imgGrid_flatten (g : List (List ℚ)) :
    (imgGrid g).flatten = (normalizeGrid g).flatten.map quantizePixel := by
  unfold imgGrid
  simp only [← List.map_flatten]

/-! ### Helper lemmas about grid shapes -/

theorem worldGrid_length (P : NoiseFn) (width height : ℕ)
    (scale persistence lacunarity : ℚ) (octaves : ℕ) (seed : ℤ) :
    (worldGrid P width height scale persistence lacunarity octaves seed).length = height := by
  unfold worldGrid
  rw [List.length_map, List.length_range]

theorem worldGrid_row_length (P : NoiseFn) (width height : ℕ)
    (scale persistence lacunarity : ℚ) (octaves : ℕ) (seed : ℤ) (row : List ℚ)
    (hrow : row ∈ worldGrid P width height scale persistence lacunarity octaves seed) :
    row.length = width := by
  unfold worldGrid at hrow
  obtain ⟨i, _, rfl⟩ := List.mem_map.mp hrow
  rw [List.length_map, List.length_range]

theorem normalizeGrid_length (g : List (List ℚ)) :
    (normalizeGrid g).length = g.length := by
  unfold normalizeGrid
  split <;> rw [List.length_map]

theorem normalizeGrid_row_length (g : List (List ℚ)) (row : List ℚ)
    (hrow : row ∈ normalizeGrid g) : ∃ r0 ∈ g, row.length = r0.length := by
  unfold normalizeGrid at hrow
  split at hrow <;>
    · obtain ⟨r0, hr0, rfl⟩ := List.mem_map.mp hrow
      exact ⟨r0, hr0, List.length_map r0 _⟩

theorem imgGrid_length (g : List (List ℚ)) :
    (imgGrid g).length = g.length := by
  unfold imgGrid
  rw [List.length_map, normalizeGrid_length]

theorem imgGrid_row_length (g : List (List ℚ)) (row : List ℕ)
    (hrow : row ∈ imgGrid g) : ∃ r0 ∈ g, row.length = r0.length := by
  unfold imgGrid at hrow
  obtain ⟨r1, hr1, rfl⟩ := List.mem_map.mp hrow
  obtain ⟨r0, hr0, h⟩ := normalizeGrid_row_length g r1 hr1
  exact ⟨r0, hr0, by rw [List.length_map, h]⟩

theorem worldGrid_flatten_ne_nil (P : NoiseFn) (width height : ℕ)
    (scale persistence lacunarity : ℚ) (octaves : ℕ) (seed : ℤ)
    (hw : 0 < width) (hh : 0 < height) :
    (worldGrid P width height scale persistence lacunarity octaves seed).flatten ≠ [] := by
  apply List.ne_nil_of_mem (a :=
    worldSample P width height scale persistence lacunarity octaves seed (↑(0 : ℕ)) (↑(0 : ℕ)))
  rw [List.mem_flatten]
  refine ⟨(List.range width).map fun (j : ℕ) =>
    worldSample P width height scale persistence lacunarity octaves seed (↑(0 : ℕ)) (j : ℚ), ?_, ?_⟩
  · unfold worldGrid
    exact List.mem_map.mpr ⟨0, List.mem_range.mpr hh, rfl⟩
  · exact List.mem_map.mpr ⟨0, List.mem_range.mpr hw, rfl⟩

/-! ### The specification claims -/

/-- C1: for a fixed parameter tuple with the seed explicitly given, two
invocations of the generator compute the identical height field and the
identical quantized byte image, whatever the ambient randomness of each
run was (the computation is a pure, deterministic function of its
parameters). -/
theorem noise_texture_deterministic (P : NoiseFn) (width height : ℤ)
    (scale persistence lacunarity : ℚ) (octaves : ℕ) (sd : ℤ) (r₁ r₂ : ℕ)
    (output_path : String) :
    worldGrid P width.toNat height.toNat scale persistence lacunarity octaves
        (usedSeed (some sd) r₁) =
      worldGrid P width.toNat height.toNat scale persistence lacunarity octaves
        (usedSeed (some sd) r₂) ∧
    generateRun P width height scale persistence lacunarity octaves (some sd) r₁ output_path =
      generateRun P width height scale persistence lacunarity octaves (some sd) r₂ output_path :=
  ⟨rfl, rfl⟩

/-- C2: for a nonempty raw height field, if the global maximum equals the
global minimum the normalizer returns an all-zero field of the same shape;
otherwise every value `v` is mapped to `(v - min) / (max - min)`, every
normalized value lies in `[0, 1]`, the original minimum maps to exactly 0
and the original maximum maps to exactly 1. -/
theorem normalizer_minmax_spec (g : List (List ℚ)) (hne : g.flatten ≠ []) :
    (listMax g.flatten = listMin g.flatten →
      normalizeGrid g = g.map fun row => row.map fun _ => (0 : ℚ)) ∧
    (listMax g.flatten ≠ listMin g.flatten →
      normalizeGrid g =
        (g.map fun row => row.map fun v =>
          (v - listMin g.flatten) / (listMax g.flatten - listMin g.flatten)) ∧
      (∀ w ∈ (normalizeGrid g).flatten, 0 ≤ w ∧ w ≤ 1) ∧
      (0 : ℚ) ∈ (normalizeGrid g).flatten ∧ (1 : ℚ) ∈ (normalizeGrid g).flatten) := by
  constructor
  · intro h
    unfold normalizeGrid
    rw [if_pos h]
  · intro h
    refine ⟨?_, fun w hw => normalized_bounds g w hw, normalized_endpoints g hne h⟩
    unfold normalizeGrid
    rw [if_neg h]

/-- Witness for C2 at the concrete field `[[0, 1]]`. -/
theorem normalizer_minmax_spec_witness :
    ([[(0 : ℚ), 1]] : List (List ℚ)).flatten ≠ [] ∧
    ((0 : ℚ) ∈ (normalizeGrid [[(0 : ℚ), 1]]).flatten ∧
      (1 : ℚ) ∈ (normalizeGrid [[(0 : ℚ), 1]]).flatten) := by
  refine ⟨by with_unfolding_all decide, ?_⟩
  have h := normalizer_minmax_spec ([[(0 : ℚ), 1]]) (by with_unfolding_all decide)
  exact (h.2 (by with_unfolding_all decide)).2.2

/-- C3: for a normalized value `v ∈ [0, 1]` the quantizer multiplies by
255 and truncates toward zero (which on nonnegative input is the floor) to
an unsigned byte; `v = 1` maps to 255 and `v = 0` maps to 0. -/
theorem quantizer_truncates (v : ℚ) (h0 : 0 ≤ v) (h1 : v ≤ 1) :
    quantizePixel v = (ratTrunc (v * 255)).toNat ∧
    ratTrunc (v * 255) = ⌊v * 255⌋ ∧
    quantizePixel v ≤ 255 ∧
    quantizePixel 1 = 255 ∧ quantizePixel 0 = 0 := by
  have hm0 : (0 : ℚ) ≤ v * 255 := mul_nonneg h0 (by norm_num)
  refine ⟨?_, ratTrunc_of_nonneg _ hm0, quantizePixel_le_255 v,
    quantizePixel_one, quantizePixel_zero⟩
  rw [quantizePixel_eq_floor v h0 h1, ratTrunc_of_nonneg _ hm0]

/-- Witness for C3 at `v = 1/2` (truncation gives 127, not 128). -/
theorem quantizer_truncates_witness :
    (0 : ℚ) ≤ 1 / 2 ∧ (1 / 2 : ℚ) ≤ 1 ∧
    quantizePixel (1 / 2) = (ratTrunc ((1 / 2 : ℚ) * 255)).toNat := by
  refine ⟨by with_unfolding_all decide, by with_unfolding_all decide, ?_⟩
  exact (quantizer_truncates (1 / 2) (by with_unfolding_all decide)
    (by with_unfolding_all decide)).1

/-- C4 counterexample: on the raw field `[[0, 7, 2550]]` the normalized
middle value is `7/2550`, whose product with 255 is `0.7`; the code's
output pixel is 0 (truncation) while the spec's `round(normalized × 255)`
quantizer gives 1, so the rounding claim is false. -/
theorem quantizer_round_cex :
    normalizeGrid [[(0 : ℚ), 7, 2550]] = [[0, 7 / 2550, 1]] ∧
    imgGrid [[(0 : ℚ), 7, 2550]] = [[0, 0, 255]] ∧
    ((normalizeGrid [[(0 : ℚ), 7, 2550]]).map fun row =>
      row.map roundQuantizePixel) = [[0, 1, 255]] := by
  refine ⟨?_, ?_, ?_⟩ <;> with_unfolding_all rfl

/-- C4 (amended): each output image pixel equals the truncation toward
zero (floor, the values being nonnegative) of `normalized_value × 255`
cast to an unsigned byte — not its rounding. -/
theorem pixel_eq_trunc_normalized (g : List (List ℚ)) (k : ℕ) :
    (imgGrid g).flatten[k]? =
      ((normalizeGrid g).flatten[k]?).map fun v => (⌊v * 255⌋).toNat := by
  rw [imgGrid_flatten, List.getElem?_map]
  cases hk : (normalizeGrid g).flatten[k]? with
  | none => rfl
  | some v =>
    have hv : v ∈ (normalizeGrid g).flatten := by
      obtain ⟨hlt, hEq⟩ := List.getElem?_eq_some.mp hk
      exact hEq ▸ List.getElem_mem hlt
    obtain ⟨hb0, hb1⟩ := normalized_bounds g v hv
    rw [Option.map_some', Option.map_some', quantizePixel_eq_floor v hb0 hb1]

/-- C5: for any generated image with positive dimensions, every output
byte is at most 255 (bytes are naturals, hence in `[0, 255]`); if the raw
field is degenerate (`max = min`) every pixel is 0, and otherwise at
least one pixel is 0 and at least one is 255. -/
theorem range_invariant (P : NoiseFn) (width height : ℕ)
    (scale persistence lacunarity : ℚ) (octaves : ℕ) (seed : ℤ)
    (hw : 0 < width) (hh : 0 < height) :
    (∀ b ∈ (imgGrid (worldGrid P width height scale persistence lacunarity octaves seed)).flatten,
        b ≤ 255) ∧
    (listMax (worldGrid P width height scale persistence lacunarity octaves seed).flatten =
        listMin (worldGrid P width height scale persistence lacunarity octaves seed).flatten →
      ∀ b ∈ (imgGrid (worldGrid P width height scale persistence lacunarity octaves seed)).flatten,
        b = 0) ∧
    (listMax (worldGrid P width height scale persistence lacunarity octaves seed).flatten ≠
        listMin (worldGrid P width height scale persistence lacunarity octaves seed).flatten →
      0 ∈ (imgGrid (worldGrid P width height scale persistence lacunarity octaves seed)).flatten ∧
      255 ∈ (imgGrid (worldGrid P width height scale persistence lacunarity octaves seed)).flatten) := by
  set g := worldGrid P width height scale persistence lacunarity octaves seed with hg
  refine ⟨?_, ?_, ?_⟩
  · intro b hb
    rw [imgGrid_flatten] at hb
    obtain ⟨v, hv, rfl⟩ := List.mem_map.mp hb
    exact quantizePixel_le_255 v
  · intro hdeg b hb
    rw [imgGrid_flatten, normalizeGrid_flatten, if_pos hdeg] at hb
    obtain ⟨v, hv, rfl⟩ := List.mem_map.mp hb
    obtain ⟨u, hu, rfl⟩ := List.mem_map.mp hv
    exact quantizePixel_zero
  · intro hne
    have hfne : g.flatten ≠ [] := by
      rw [hg]
      exact worldGrid_flatten_ne_nil P width height scale persistence lacunarity
        octaves seed hw hh
    obtain ⟨h0, h1⟩ := normalized_endpoints g hfne hne
    constructor
    · rw [imgGrid_flatten]
      exact List.mem_map.mpr ⟨0, h0, quantizePixel_zero⟩
    · rw [imgGrid_flatten]
      exact List.mem_map.mpr ⟨1, h1, quantizePixel_one⟩

/-- Witness for C5 with the noise primitive `x + y` on a 2×1 grid. -/
theorem range_invariant_witness :
    0 ∈ (imgGrid (worldGrid (fun x y _ _ _ _ _ _ => x + y) 2 1 1 (1 / 2) 2 1 0)).flatten ∧
    255 ∈ (imgGrid (worldGrid (fun x y _ _ _ _ _ _ => x + y) 2 1 1 (1 / 2) 2 1 0)).flatten := by
  have h := range_invariant (fun x y _ _ _ _ _ _ => x + y) 2 1 1 (1 / 2) 2 1 0
    (by decide) (by decide)
  exact h.2.2 (by with_unfolding_all decide)

/-- The C6 auxiliary fact: the concrete primitive `exPeriodic` honours the
periodic-wrap contract. -/
theorem exPeriodic_periodic : PeriodicNoise exPeriodic := by
  intro x y octaves persistence lacunarity rx ry b
  constructor
  · unfold exPeriodic
    by_cases hrx : rx = 0
    · rw [if_pos hrx, if_pos hrx]
    · rw [if_neg hrx, if_neg hrx]
      have hne : ((rx : ℚ)) ≠ 0 := Nat.cast_ne_zero.mpr hrx
      have hdiv : (x + (rx : ℚ)) / (rx : ℚ) = x / rx + 1 := by
        rw [add_div, div_self hne]
      rw [hdiv, rat_floor_eq_int_floor, rat_floor_eq_int_floor, Int.floor_add_one]
      push_cast
      ring
  · rfl

/-- C6: the tileability property fails on the code.  The sampling loop
passes `repeatx = width, repeaty = height` but samples the noise at
`i / scale`, so for a primitive that is genuinely periodic with those
wrap parameters the sample at row `height` does not equal the sample at
row 0: the row period of the field is `scale * width` rows, not `height`. -/
theorem not_tileable : ¬tileableClaim := by
  intro hcl
  have h := hcl exPeriodic exPeriodic_periodic 2 2 4 (1 / 2) 2 1 0 0
    (by decide) (by decide) (by with_unfolding_all decide)
  revert h
  with_unfolding_all decide

/-- C7 counterexample: a strictly negative scale with positive dimensions
does not fail — the run completes and produces an image (the claim said
any `scale ≤ 0` fails). -/
theorem negative_scale_succeeds :
    ((-1 : ℚ) ≤ 0) ∧
    generateRun (fun _ _ _ _ _ _ _ _ => 0) 1 1 (-1) (1 / 2) 2 1 (some 0) 0 ("a/b.png") =
      Except.ok [[0]] := by
  refine ⟨by with_unfolding_all decide, ?_⟩
  with_unfolding_all rfl

/-- C7 (amended): an invocation with `width ≤ 0`, `height ≤ 0`, or
`scale = 0` fails with one of the invalid-parameter errors (negative
dimension, division by zero, or empty grid — never reaching the directory
creation or the file write); a strictly negative `scale` alone does not
fail. -/
theorem invalid_params_fail (P : NoiseFn) (width height : ℤ)
    (scale persistence lacunarity : ℚ) (octaves : ℕ) (seed : Option ℤ) (r : ℕ)
    (output_path : String)
    (h : width ≤ 0 ∨ height ≤ 0 ∨ scale = 0) :
    ∃ e : GenError, e ≠ GenError.makedirsEmptyPath ∧
      generateRun P width height scale persistence lacunarity octaves seed r output_path =
        Except.error e := by
  by_cases h1 : width < 0 ∨ height < 0
  · refine ⟨GenError.negativeDimension, by decide, ?_⟩
    simp only [generateRun]
    rw [if_pos h1]
  · by_cases h2 : scale = 0 ∧ 0 < width ∧ 0 < height
    · refine ⟨GenError.divisionByZero, by decide, ?_⟩
      simp only [generateRun]
      rw [if_neg h1, if_pos h2]
    · have h3 : width = 0 ∨ height = 0 := by
        rcases h with hw | hh | hs
        · left; omega
        · right; omega
        · by_contra hc
          push_neg at hc
          exact h2 ⟨hs, by omega, by omega⟩
      refine ⟨GenError.emptyGrid, by decide, ?_⟩
      simp only [generateRun]
      rw [if_neg h1, if_neg h2, if_pos h3]

/-- Witness for C7 (amended) at `width = 0`. -/
theorem invalid_params_fail_witness :
    ((0 : ℤ) ≤ 0 ∨ (5 : ℤ) ≤ 0 ∨ (1 : ℚ) = 0) ∧
    (∃ e : GenError, e ≠ GenError.makedirsEmptyPath ∧
      generateRun (fun _ _ _ _ _ _ _ _ => 0) 0 5 1 (1 / 2) 2 1 (some 0) 0 ("a/b") =
        Except.error e) :=
  ⟨Or.inl (by decide),
    invalid_params_fail (fun _ _ _ _ _ _ _ _ => 0) 0 5 1 (1 / 2) 2 1 (some 0) 0 ("a/b")
      (Or.inl (by decide))⟩

/-- C8: a successful run's output image has exactly `height` rows of
exactly `width` columns each. -/
theorem shape_invariant (P : NoiseFn) (width height : ℤ)
    (scale persistence lacunarity : ℚ) (octaves : ℕ) (seed : Option ℤ) (r : ℕ)
    (output_path : String) (img : List (List ℕ))
    (h : generateRun P width height scale persistence lacunarity octaves seed r output_path =
      Except.ok img) :
    (img.length : ℤ) = height ∧ ∀ row ∈ img, (row.length : ℤ) = width := by
  simp only [generateRun] at h
  split_ifs at h with h1 h2 h3 h4
  injection h with h
  subst h
  constructor
  · rw [imgGrid_length, worldGrid_length, Int.toNat_of_nonneg (by omega)]
  · intro row hrow
    obtain ⟨r0, hr0, hlen⟩ := imgGrid_row_length _ row hrow
    rw [hlen, worldGrid_row_length P width.toNat height.toNat scale persistence
      lacunarity octaves (usedSeed seed r) r0 hr0, Int.toNat_of_nonneg (by omega)]

/-- Witness for C8 on a successful 2×3 run with the constant-zero
primitive. -/
theorem shape_invariant_witness :
    generateRun (fun _ _ _ _ _ _ _ _ => 0) 2 3 1 (1 / 2) 2 1 (some 0) 0 ("a/b") =
      Except.ok [[0, 0], [0, 0], [0, 0]] ∧
    ((([[0, 0], [0, 0], [0, 0]] : List (List ℕ)).length : ℤ) = 3 ∧
      ∀ row ∈ ([[0, 0], [0, 0], [0, 0]] : List (List ℕ)), (row.length : ℤ) = 2) := by
  have hrun : generateRun (fun _ _ _ _ _ _ _ _ => 0) 2 3 1 (1 / 2) 2 1 (some 0) 0 ("a/b") =
      Except.ok [[0, 0], [0, 0], [0, 0]] := by
    with_unfolding_all rfl
  exact ⟨hrun, shape_invariant (fun _ _ _ _ _ _ _ _ => 0) 2 3 1 (1 / 2) 2 1 (some 0) 0
    ("a/b") [[0, 0], [0, 0], [0, 0]] hrun⟩

/-- C9: with valid compute parameters, an output path without any `/`
(a bare filename) makes the run fail at the `os.makedirs` step — its
`os.path.dirname` is the empty string — so the file is never written,
even though the current directory is writable. -/
theorem bare_filename_write_fails (P : NoiseFn) (width height : ℤ)
    (scale persistence lacunarity : ℚ) (octaves : ℕ) (seed : Option ℤ) (r : ℕ)
    (output_path : String) (hw : 0 < width) (hh : 0 < height) (hs : scale ≠ 0)
    (hp : ¬(('/') ∈ output_path.toList)) :
    generateRun P width height scale persistence lacunarity octaves seed r output_path =
      Except.error GenError.makedirsEmptyPath := by
  have hd : posixDirname output_path = "" := by
    simp only [posixDirname]
    rw [if_neg hp]
  simp only [generateRun]
  rw [if_neg (by omega : ¬(width < 0 ∨ height < 0)), if_neg fun hc => hs hc.1,
    if_neg (by omega : ¬(width = 0 ∨ height = 0)), if_pos hd]

/-- Witness for C9 at the bare filename `out.png`. -/
theorem bare_filename_write_fails_witness :
    (0 : ℤ) < 1 ∧ ((1 : ℚ) ≠ 0) ∧ ¬(('/') ∈ ("out.png").toList) ∧
    generateRun (fun _ _ _ _ _ _ _ _ => 0) 1 1 1 (1 / 2) 2 1 (some 0) 0 ("out.png") =
      Except.error GenError.makedirsEmptyPath := by
  refine ⟨by decide, by with_unfolding_all decide, by decide, ?_⟩
  exact bare_filename_write_fails (fun _ _ _ _ _ _ _ _ => 0) 1 1 1 (1 / 2) 2 1 (some 0) 0
    ("out.png") (by decide) (by decide) (by with_unfolding_all decide) (by decide)

/-- C10: when the seed is unset, the seed actually used is
`np.random.randint(0, 100)`, an integer between 0 and 99 inclusive;
every default-seed run therefore coincides with an explicitly seeded run
for some seed in `Finset.Icc 0 99`, a set of exactly 100 seeds — so at
most 100 distinct default-seed textures exist for fixed remaining
parameters. -/
theorem default_seed_bounded (P : NoiseFn) (width height : ℤ)
    (scale persistence lacunarity : ℚ) (octaves : ℕ) (r : ℕ) (output_path : String) :
    (0 ≤ usedSeed none r ∧ usedSeed none r ≤ 99) ∧
    (∃ sd ∈ Finset.Icc (0 : ℤ) 99,
      generateRun P width height scale persistence lacunarity octaves none r output_path =
        generateRun P width height scale persistence lacunarity octaves (some sd) r
          output_path) ∧
    (Finset.Icc (0 : ℤ) 99).card = 100 := by
  have hmod0 : 0 ≤ (r : ℤ) % 100 := Int.emod_nonneg _ (by norm_num)
  have hmod1 : (r : ℤ) % 100 < 100 := Int.emod_lt_of_pos _ (by norm_num)
  have hval : usedSeed none r = (r : ℤ) % 100 := by
    simp [usedSeed, npRandint]
  refine ⟨⟨?_, ?_⟩, ⟨usedSeed none r, ?_, rfl⟩, ?_⟩
  · rw [hval]
    exact hmod0
  · rw [hval]
    omega
  · rw [Finset.mem_Icc, hval]
    omega
  · simp [Int.card_Icc]
